import Mathlib

set_option autoImplicit false

/-!
Verification of the icon-builder pipeline (scripts/icon-builder.py).

The script discovers PNG icons under source/official, renders variants,
and aggregates three outputs: a Markdown index, a Structurizr theme JSON
and a mermaid icon manifest JSON.  This file shallowly embeds the pure
data transformations of the script:

* `build_mermaid_icon` — adds one icon (SVG or PNG) to the mermaid object,
  skipping the icon on any per-icon failure;
* the SVG re-serialization step — `xml.etree` serialization of each child
  of the SVG root (title children dropped) followed by the regular
  expression substitution removing `xmlns` declarations;
* the aggregation loop of `main` — sorting by (category, target), one
  Markdown row and one theme element per icon, and the mermaid fold;
* `verify_environment` — modelled over an environment record;
* the setup phase of `main` — category directory creation before the
  render jobs are submitted to the pool, modelled as an event trace.

File contents (configuration values, parsed SVG trees, PNG bytes) are
modelled by an explicit filesystem map; a `none` result stands for the
exception raised by the corresponding Python call.
-/

/-- One attribute of an XML element: namespace URI (`""` when the attribute
is not namespaced), local name and value. -/
structure XmlAttr where
  ns : String
  name : String
  val : String

/-- An XML element as produced by parsing an SVG file: namespace URI,
local tag name, attributes, text, child elements and tail text.
(Only element nodes are modelled; `remove_blank_text=True` is used by the
script so whitespace-only text is absent from parsed trees.) -/
inductive XmlElem where
  | mk (ns : String) (tag : String) (attrs : List XmlAttr) (text : String)
      (children : List XmlElem) (tail : String)

def XmlElem.ns : XmlElem → String
  | .mk n _ _ _ _ _ => n

def XmlElem.tag : XmlElem → String
  | .mk _ t _ _ _ _ => t

def XmlElem.attrs : XmlElem → List XmlAttr
  | .mk _ _ a _ _ _ => a

def XmlElem.text : XmlElem → String
  | .mk _ _ _ tx _ _ => tx

def XmlElem.children : XmlElem → List XmlElem
  | .mk _ _ _ _ c _ => c

def XmlElem.tail : XmlElem → String
  | .mk _ _ _ _ _ tl => tl

/-- The SVG namespace registered by the script via `ET.register_namespace`. -/
def svgNs : String := "http://www.w3.org/2000/svg"

/-- The xlink namespace registered by the script via `ET.register_namespace`. -/
def xlinkNs : String := "http://www.w3.org/1999/xlink"

/-- Clark notation for a tag, as exposed by lxml element `.tag`:
`{uri}local` for namespaced elements, bare local name otherwise. -/
def clarkTag (e : XmlElem) : String :=
  if e.ns = "" then e.tag else "\x7b" ++ e.ns ++ "\x7d" ++ e.tag

/-- The Clark-notation tag the script compares children against:
`'{http://www.w3.org/2000/svg}title'`. -/
def svgTitleClark : String := "\x7bhttp://www.w3.org/2000/svg\x7dtitle"

/-- Namespace prefix assignment of the serializer after the two
`ET.register_namespace` calls in the script: default prefix for SVG,
`xlink` for xlink, a generated `ns0` otherwise. -/
def nsPfx (ns : String) : String :=
  if ns = svgNs then "" else if ns = xlinkNs then "xlink" else "ns0"

/-- Qualified name used when serializing a tag or attribute name. -/
def qnameOf (ns nm : String) : String :=
  if ns = "" then nm
  else if nsPfx ns = "" then nm else nsPfx ns ++ ":" ++ nm

/-- `xml.etree` text escaping (`_escape_cdata`). -/
def escCdata (s : String) : String :=
  String.join (s.data.map fun c =>
    if c = '&' then "&amp;"
    else if c = '<' then "&lt;"
    else if c = '>' then "&gt;"
    else String.mk [c])

/-- `xml.etree` attribute-value escaping (`_escape_attrib`). -/
def escAttrib (s : String) : String :=
  String.join (s.data.map fun c =>
    if c = '&' then "&amp;"
    else if c = '<' then "&lt;"
    else if c = '>' then "&gt;"
    else if c = '"' then "&quot;"
    else if c = '\x0d' then "&#13;"
    else if c = '\n' then "&#10;"
    else if c = '\t' then "&#09;"
    else String.mk [c])

/-- Append a namespace URI to the accumulator if new and nonempty; models
the first-seen collection of namespaces in `xml.etree`'s `_namespaces`. -/
def nsInsert (acc : List String) (ns : String) : List String :=
  if ns = "" ∨ ns ∈ acc then acc else acc ++ [ns]

mutual

/-- Collect the namespaces used in an element's subtree in document order
(element tag first, then attribute names, then children), as
`xml.etree`'s `_namespaces` does for the fragment passed to `tostring`. -/
def nsCollect : XmlElem → List String → List String
  | .mk n _ ats _ ch _, acc =>
      nsCollectList ch (ats.foldl (fun a at_ => nsInsert a at_.ns) (nsInsert acc n))

def nsCollectList : List XmlElem → List String → List String
  | [], acc => acc
  | c :: cs, acc => nsCollectList cs (nsCollect c acc)

end

/-- One `xmlns` declaration as written by the serializer:
` xmlns="uri"` for the default prefix, ` xmlns:pfx="uri"` otherwise. -/
def declOf (ns : String) : String :=
  " xmlns" ++ (if nsPfx ns = "" then "" else ":" ++ nsPfx ns) ++ "=\"" ++ ns ++ "\""

/-- The block of namespace declarations `ET.tostring` places on the root of
the serialized fragment, sorted by prefix as `_serialize_xml` does. -/
def declsString (e : XmlElem) : String :=
  String.join (((nsCollect e []).mergeSort (fun a b => decide (nsPfx a ≤ nsPfx b))).map declOf)

/-- Serialization of an attribute list, in order. -/
def serAttrs (l : List XmlAttr) : String :=
  String.join (l.map fun a => " " ++ qnameOf a.ns a.name ++ "=\"" ++ escAttrib a.val ++ "\"")

mutual

/-- `xml.etree` XML serialization of one element (`_serialize_xml` with the
default `short_empty_elements=True`); `extra` is the namespace-declaration
block inserted after the tag on the root of the serialized fragment. -/
def serElem : XmlElem → String → String
  | .mk n tg ats tx ch tl, extra =>
    (if tx = "" && ch.isEmpty then
      "<" ++ qnameOf n tg ++ extra ++ serAttrs ats ++ " />"
    else
      "<" ++ qnameOf n tg ++ extra ++ serAttrs ats ++ ">" ++
        escCdata tx ++ serList ch ++ "</" ++ qnameOf n tg ++ ">")
    ++ escCdata tl

def serList : List XmlElem → String
  | [] => ""
  | c :: cs => serElem c "" ++ serList cs

end

/-- `ET.tostring(child, encoding='unicode', method='xml')` with the two
namespaces registered by the script. -/
def etTostring (c : XmlElem) : String := serElem c (declsString c)

/-- Drop characters up to and including the first `'"'`; `none` when the
list holds no quote.  This is how the subpattern `[^"]*"` consumes input:
the quote it matches is necessarily the first quote ahead. -/
def dropThroughQuote : List Char → Option (List Char)
  | [] => none
  | c :: cs => if c = '"' then some cs else dropThroughQuote cs

theorem dropThroughQuote_length {l r : List Char} (h : dropThroughQuote l = some r) :
    r.length < l.length := by
  induction l with
  | nil => simp [dropThroughQuote] at h
  | cons c cs ih =>
    by_cases hc : c = '"'
    · simp [dropThroughQuote, hc] at h
      simpa [← h] using Nat.lt_succ_of_le (Nat.le_refl _)
    · simp [dropThroughQuote, hc] at h
      exact Nat.lt_succ_of_lt (ih h)

/-- The scanner of `re.sub(r'\sxmlns[^"]*"[^"]*"', '', s)`: at each
position, try to match a whitespace character, the literal `xmlns`, the
characters up to a first quote, then up to a second quote; on a match the
matched span is deleted and scanning resumes after it, otherwise the
character is kept and scanning moves on by one. -/
def reSubXmlnsAux : List Char → List Char
  | [] => []
  | c :: cs =>
    if c.isWhitespace && decide (cs.take 5 = ['x', 'm', 'l', 'n', 's']) then
      match h1 : dropThroughQuote (cs.drop 5) with
      | some r1 =>
        match h2 : dropThroughQuote r1 with
        | some r2 => reSubXmlnsAux r2
        | none => c :: reSubXmlnsAux cs
      | none => c :: reSubXmlnsAux cs
    else c :: reSubXmlnsAux cs
termination_by l => l.length
decreasing_by
  · exact Nat.lt_succ_of_lt (Nat.lt_of_lt_of_le
      (Nat.lt_of_lt_of_le (dropThroughQuote_length h2) (Nat.le_of_lt (dropThroughQuote_length h1)))
      (List.length_drop 5 cs ▸ Nat.sub_le _ _))
  · exact Nat.lt_succ_of_le (Nat.le_refl _)
  · exact Nat.lt_succ_of_le (Nat.le_refl _)
  · exact Nat.lt_succ_of_le (Nat.le_refl _)

/-- `re.sub(r'\sxmlns[^"]*"[^"]*"', '', s)` from `build_mermaid_icon`. -/
def reSubXmlns (s : String) : String := String.mk (reSubXmlnsAux s.data)

/-- The base64 alphabet. -/
def b64Char (n : Nat) : Char :=
  "ABCDEFGHIJKLMNOPQRSTUVWXYZabcdefghijklmnopqrstuvwxyz0123456789+/".data.getD n 'A'

/-- Standard base64 of a byte sequence (`base64.b64encode`). -/
def base64Encode : List Nat → List Char
  | [] => []
  | [a] => [b64Char (a / 4), b64Char (a % 4 * 16), '=', '=']
  | [a, b] => [b64Char (a / 4), b64Char (a % 4 * 16 + b / 16), b64Char (b % 16 * 4), '=']
  | a :: b :: c :: rest =>
      b64Char (a / 4) :: b64Char (a % 4 * 16 + b / 16) ::
        b64Char (b % 16 * 4 + c / 64) :: b64Char (c % 64) :: base64Encode rest

/-- `base64.b64encode(data).decode("utf-8")`. -/
def base64String (bs : List Nat) : String := String.mk (base64Encode bs)

/-- The data URI built for a raster icon:
`"data:image/png;base64," + base64.b64encode(png_data).decode("utf-8")`. -/
def pngDataUri (bs : List Nat) : String := "data:image/png;base64," ++ base64String bs

/-- Python `s.strip(chars)`: remove from both ends every character that
occurs in `chars`. -/
def pyStrip (s chars : String) : String :=
  String.mk (((s.data.dropWhile (chars.data.contains ·)).reverse.dropWhile
    (chars.data.contains ·)).reverse)

/-- Value of a nonempty all-digit character list, `none` otherwise. -/
def digitsVal (l : List Char) : Option Nat :=
  if l ≠ [] ∧ l.all Char.isDigit then
    some (l.foldl (fun n c => n * 10 + (c.toNat - 48)) 0)
  else none

/-- Python `int(s)`: surrounding whitespace allowed, optional sign, then
decimal digits; anything else raises (modelled as `none`).  (Digit
grouping with underscores is not modelled; the script only meets plain
attribute values such as `"32"`.) -/
def parsePyInt (s : String) : Option Int :=
  match (s.data.dropWhile Char.isWhitespace).reverse.dropWhile Char.isWhitespace |>.reverse with
  | '-' :: ds => (digitsVal ds).map (fun n => -(n : Int))
  | '+' :: ds => (digitsVal ds).map (fun n => (n : Int))
  | ds => (digitsVal ds).map (fun n => (n : Int))

/-- `lxml` attribute lookup `svg_root.get(name)` for a plain
(non-namespaced) attribute name. -/
def lookupAttr (e : XmlElem) (nm : String) : Option String :=
  (e.attrs.find? (fun a => a.ns = "" && a.name = nm)).map XmlAttr.val

/-- The serialized body of an SVG root, as `build_mermaid_icon` computes it:
`ET.tostring` of every child whose tag is not the SVG `title` tag, joined,
then the `xmlns`-stripping substitution. -/
def embedBody (children : List XmlElem) : String :=
  reSubXmlns (String.join ((children.filter (fun c => clarkTag c != svgTitleClark)).map etTostring))

/-- The SVG part of `build_mermaid_icon`'s `try` block: extract `width` and
`height` attributes (missing attribute → `AttributeError`), strip the
`px` suffix and parse with `int` (bad digits → `ValueError`), and build
the serialized body; any failure aborts the whole step. -/
def svgExtract (root : XmlElem) : Option (String × Int × Int) :=
  (lookupAttr root "width").bind fun w =>
    (parsePyInt (pyStrip w "px")).bind fun wi =>
      (lookupAttr root "height").bind fun h =>
        (parsePyInt (pyStrip h "px")).map fun hi =>
          (embedBody root.children, wi, hi)

/-- One entry of the manifest's `icons` mapping:
`{"body": body, "width": width, "height": height}`. -/
structure MermaidIcon where
  body : String
  width : Int
  height : Int
deriving DecidableEq

/-- The mermaid manifest object built in `main`; dictionaries are modelled
as association lists in insertion order, as Python dicts preserve it. -/
structure Mermaid where
  pfx : String
  infoName : String
  total : Nat
  version : String
  lastModified : Nat
  width : Nat
  height : Nat
  icons : List (String × MermaidIcon)
  categories : List (String × List String)
deriving DecidableEq

/-- Python dict assignment `d[k] = v`: overwrite in place when the key is
present, append otherwise. -/
def dictSet (d : List (String × MermaidIcon)) (k : String) (v : MermaidIcon) :
    List (String × MermaidIcon) :=
  if d.any (fun p => p.1 = k) then d.map (fun p => if p.1 = k then (k, v) else p)
  else d ++ [(k, v)]

/-- The category-group update of `build_mermaid_icon`: create the group on
first use (`mermaid["categories"][cat] = []`), then append the target. -/
def catAppend (d : List (String × List String)) (cat tgt : String) :
    List (String × List String) :=
  if d.any (fun p => p.1 = cat) then
    d.map (fun p => if p.1 = cat then (p.1, p.2 ++ [tgt]) else p)
  else d ++ [(cat, [tgt])]

/-- The success tail of `build_mermaid_icon`: bump the total, append the
target to its category group, insert the icon entry. -/
def addIcon (m : Mermaid) (cat tgt : String) (e : MermaidIcon) : Mermaid :=
  { m with
    total := m.total + 1
    categories := catAppend m.categories cat tgt
    icons := dictSet m.icons tgt e }

/-- What the script can observe of one file: the outcome of `etree.parse`
on it (`none` models a raised parse error) and the outcome of reading its
bytes (`none` models an I/O error). -/
structure FileData where
  svgParse : Option XmlElem
  bytes : Option (List Nat)

/-- A filesystem snapshot: `none` for a path means `Path(p).exists()` is
false. -/
def FS := String → Option FileData

/-- Python `filename.endswith(suffix)`: code-point suffix test, modelled
structurally over the character lists. -/
def pyEndsWith (s suf : String) : Bool := suf.data.isSuffixOf s.data

/-- Python slicing that removes the last `n` characters (used for the
`re.sub(r'\.png$', '.svg', ...)` sibling-name computation). -/
def pyDropRight (s : String) (n : Nat) : String :=
  String.mk (s.data.take (s.data.length - n))

/-- `build_mermaid_icon(mermaid, filename, cat, mermaid_target)`: embed one
icon into the mermaid object.  An existing `.svg` file is parsed and
re-serialized; an existing `.png` file is read and base64-encoded; any
failure (or an unsupported/missing file) leaves the object unchanged. -/
def build_mermaid_icon (fs : FS) (m : Mermaid) (filename cat tgt : String) : Mermaid :=
  if pyEndsWith filename ".svg" && (fs filename).isSome then
    match (fs filename).bind FileData.svgParse with
    | none => m
    | some root =>
      match svgExtract root with
      | none => m
      | some bwh => addIcon m cat tgt ⟨bwh.1, bwh.2.1, bwh.2.2⟩
  else if pyEndsWith filename ".png" && (fs filename).isSome then
    match (fs filename).bind FileData.bytes with
    | none => m
    | some data => addIcon m cat tgt ⟨pngDataUri data, 64, 64⟩
  else m

/-- The per-file embedding outcome, factored out of `build_mermaid_icon`:
the entry the icon would contribute, or `none` when the step fails. -/
def embedFile (fs : FS) (filename : String) : Option MermaidIcon :=
  if pyEndsWith filename ".svg" && (fs filename).isSome then
    ((fs filename).bind FileData.svgParse).bind fun root =>
      (svgExtract root).map fun bwh => ⟨bwh.1, bwh.2.1, bwh.2.2⟩
  else if pyEndsWith filename ".png" && (fs filename).isSome then
    ((fs filename).bind FileData.bytes).map fun data => ⟨pngDataUri data, 64, 64⟩
  else none

theorem build_mermaid_icon_eq (fs : FS) (m : Mermaid) (filename cat tgt : String) :
    build_mermaid_icon fs m filename cat tgt =
      match embedFile fs filename with
      | none => m
      | some e => addIcon m cat tgt e := by
  unfold build_mermaid_icon embedFile
  by_cases h1 : (pyEndsWith filename ".svg" && (fs filename).isSome) = true
  · simp only [if_pos h1]
    cases (fs filename).bind FileData.svgParse with
    | none => rfl
    | some root =>
      simp only [Option.some_bind]
      cases svgExtract root <;> rfl
  · simp only [if_neg h1]
    by_cases h2 : (pyEndsWith filename ".png" && (fs filename).isSome) = true
    · simp only [if_pos h2]
      cases (fs filename).bind FileData.bytes <;> rfl
    · simp only [if_neg h2]

/-- One discovered icon: the source `.png` path together with the category
and target names derived by the external `Icon` collaborator. -/
structure Icon where
  filename : String
  category : String
  target : String
deriving DecidableEq

/-- `re.sub(r'\.png$', '.svg', str(j.filename))`: replace a trailing
`.png` by `.svg`.  (The `$`-before-final-newline quirk of Python regular
expressions is not modelled; paths hold no newlines.) -/
def sibSvgName (s : String) : String :=
  if pyEndsWith s ".png" then pyDropRight s 4 ++ ".svg" else s

/-- The per-icon body of the aggregation loop in `main`: embed from the
sibling `.svg` when it exists, else from the `.png` itself. -/
def processIcon (fs : FS) (m : Mermaid) (j : Icon) : Mermaid :=
  if (fs (sibSvgName j.filename)).isSome then
    build_mermaid_icon fs m (sibSvgName j.filename) j.category j.target
  else
    build_mermaid_icon fs m j.filename j.category j.target

/-- The embedding outcome for an icon as routed by `main` (sibling SVG
preferred over the raster file). -/
def embedEntry (fs : FS) (j : Icon) : Option MermaidIcon :=
  if (fs (sibSvgName j.filename)).isSome then embedFile fs (sibSvgName j.filename)
  else embedFile fs j.filename

theorem build_skip {fs : FS} (m : Mermaid) {filename : String} (cat tgt : String)
    (h : embedFile fs filename = none) : build_mermaid_icon fs m filename cat tgt = m := by
  rw [build_mermaid_icon_eq, h]

theorem build_add {fs : FS} (m : Mermaid) {filename : String} (cat tgt : String)
    {e : MermaidIcon} (h : embedFile fs filename = some e) :
    build_mermaid_icon fs m filename cat tgt = addIcon m cat tgt e := by
  rw [build_mermaid_icon_eq, h]

theorem processIcon_skip {fs : FS} (m : Mermaid) {j : Icon}
    (hE : embedEntry fs j = none) : processIcon fs m j = m := by
  unfold processIcon
  unfold embedEntry at hE
  by_cases h : ((fs (sibSvgName j.filename)).isSome = true)
  · rw [if_pos h] at hE
    rw [if_pos h]
    exact build_skip m _ _ hE
  · rw [if_neg h] at hE
    rw [if_neg h]
    exact build_skip m _ _ hE

theorem processIcon_add {fs : FS} (m : Mermaid) {j : Icon} {e : MermaidIcon}
    (hE : embedEntry fs j = some e) :
    processIcon fs m j = addIcon m j.category j.target e := by
  unfold processIcon
  unfold embedEntry at hE
  by_cases h : ((fs (sibSvgName j.filename)).isSome = true)
  · rw [if_pos h] at hE
    rw [if_pos h]
    exact build_add m _ _ hE
  · rw [if_neg h] at hE
    rw [if_neg h]
    exact build_add m _ _ hE

/-- The Boolean comparison realising Python's
`sorted(icons, key=lambda x: (x.category, x.target))`: lexicographic on
the (category, target) pair of strings. -/
def iconLe (a b : Icon) : Bool :=
  decide (a.category < b.category) ||
    (decide (a.category = b.category) && decide (a.target ≤ b.target))

/-- The sort key of the aggregation loop. -/
def iconKey (j : Icon) : String × String := (j.category, j.target)

/-- `sorted_icons = sorted(icons, key=lambda x: (x.category, x.target))`;
both `sorted` and `List.mergeSort` are stable, so they agree. -/
def sortIcons (l : List Icon) : List Icon := l.mergeSort iconLe

/-- The Markdown row appended for one icon. -/
def markdownRow (j : Icon) : String :=
  j.category ++ " | " ++ j.target ++ " | ![" ++ j.target ++ "](dist/" ++ j.category ++
    "/" ++ j.target ++ ".png?raw=true) | " ++ j.category ++ "/" ++ j.target ++ ".puml\n"

/-- One element of the Structurizr theme. -/
structure ThemeElem where
  tag : String
  stroke : String
  icon : String
deriving DecidableEq

/-- The theme element appended for one icon. -/
def themeElem (j : Icon) : ThemeElem :=
  { tag := j.target, stroke := "#4284F3", icon := j.category ++ "/" ++ j.target ++ ".png" }

/-- `release_version = "20.0"`. -/
def release_version : String := "20.0"

/-- Leap-year rule of the proleptic Gregorian calendar used by `datetime`. -/
def isLeapYear (y : Nat) : Bool := (y % 4 = 0 && y % 100 != 0) || y % 400 = 0

/-- Days in a month of the Gregorian calendar. -/
def daysInMonth (y m : Nat) : Nat :=
  if m = 2 then (if isLeapYear y then 29 else 28)
  else if m = 4 ∨ m = 6 ∨ m = 9 ∨ m = 11 then 30
  else 31

/-- Days from 1970-01-01 to `y`-01-01. -/
def daysBeforeYear (y : Nat) : Nat :=
  ((List.range (y - 1970)).map (fun i => if isLeapYear (1970 + i) then 366 else 365)).sum

/-- Days from `y`-01-01 to `y`-`m`-01. -/
def daysBeforeMonth (y m : Nat) : Nat :=
  ((List.range (m - 1)).map (fun i => daysInMonth y (i + 1))).sum

/-- Epoch seconds of midnight UTC on a calendar date: the value of
`datetime.strptime(d, "%Y-%m-%d").replace(tzinfo=timezone.utc).timestamp()`
passed through `int`. -/
def epochSecondsOfDate (y m d : Nat) : Nat :=
  86400 * (daysBeforeYear y + daysBeforeMonth y m + (d - 1))

/-- `release_utc_seconds`, computed once at module load from the
hard-coded date string `"2025-02-07"`. -/
def release_utc_seconds : Nat := epochSecondsOfDate 2025 2 7

/-- The mermaid object as initialised in `main` before the loop. -/
def initMermaid : Mermaid :=
  { pfx := "gcp"
    infoName := "GCP Icons"
    total := 0
    version := release_version
    lastModified := release_utc_seconds
    width := 64
    height := 64
    icons := []
    categories := [] }

/-- The three aggregate outputs of `main`. -/
structure AggResult where
  markdown : List String
  elements : List ThemeElem
  mermaid : Mermaid
deriving DecidableEq

/-- The aggregation stage of `main`: sort the icons by (category, target),
then, per icon in order, append one Markdown row, append one theme
element, and run the mermaid embedding step.  The three accumulators are
independent, so the single Python loop is the same as one map per output
and a fold for the mermaid object. -/
def aggregate (fs : FS) (icons : List Icon) : AggResult :=
  { markdown := "# GCP Symbols\n\n" :: (sortIcons icons).map markdownRow
    elements := (sortIcons icons).map themeElem
    mermaid := (sortIcons icons).foldl (processIcon fs) initMermaid }

/-- Configuration data loaded from `config.yml` (its contents are consumed
only by the external `Icon` collaborator, so it stays abstract here). -/
def YamlData := List (String × String)

/-- What `verify_environment` observes: the last two components of the
working directory, the outcome of loading `config.yml` (`none` models a
raised error), existence of the two required source paths, the outcome of
launching the plantuml toolchain (`none` models a `subprocess.run` launch
exception, `some c` a completed run with exit status `c`), and the
`--check-env` flag. -/
structure Env where
  cwdLast2 : List String
  configLoad : Option YamlData
  commonPumlExists : Bool
  officialExists : Bool
  javaRun : Option Int
  checkEnvFlag : Bool

/-- Result of `verify_environment`: either the process exits with the
given status, or verification proceeds with the loaded configuration. -/
inductive VerifyOutcome where
  | exitWith (code : Nat)
  | proceed (cfg : YamlData)

/-- `verify_environment()`: wrong working directory, a failed config load,
a missing required source path, or a toolchain launch exception each exit
the process with status 1; a completed toolchain run is accepted whatever
its exit status; `--check-env` then exits 0, otherwise the run proceeds. -/
def verify_environment (env : Env) : VerifyOutcome :=
  if env.cwdLast2 ≠ ["gcp-icons-for-plantuml", "scripts"] then .exitWith 1
  else
    match env.configLoad with
    | none => .exitWith 1
    | some cfg =>
      if !env.commonPumlExists then .exitWith 1
      else if !env.officialExists then .exitWith 1
      else
        match env.javaRun with
        | none => .exitWith 1
        | some _ => if env.checkEnvFlag then .exitWith 0 else .proceed cfg

/-- The two kinds of side effect of `main`'s setup phase that the temporal
claim is about: creating one category output directory, and submitting
the render job of one icon to the pool. -/
inductive BuildEvent where
  | mkdirCat (cat : String)
  | renderJob (j : Icon)

/-- `sorted(set([icon.category for icon in icons]))`. -/
def mkdirCats (icons : List Icon) : List String :=
  ((icons.map Icon.category).dedup).mergeSort (fun a b => decide (a ≤ b))

/-- The ordered side effects of `main` between icon discovery and the pool
barrier: one `mkdir` per distinct category, then one submitted render job
per icon. -/
def setupTrace (icons : List Icon) : List BuildEvent :=
  (mkdirCats icons).map .mkdirCat ++ icons.map .renderJob

/-- Effect of `Path(f"../dist/{i}").mkdir(exist_ok=True)` on the set of
existing directories: create if absent, tolerate an existing one. -/
def applyMkdir (dirs : List String) (d : String) : List String :=
  if d ∈ dirs then dirs else dirs ++ [d]

/-- Directories existing after the mkdir loop, from initial state `dirs0`. -/
def dirsAfterSetup (dirs0 : List String) (icons : List Icon) : List String :=
  (mkdirCats icons).foldl applyMkdir dirs0

/-! ### Association-list (Python dict) lemmas -/

theorem any_key_iff {α : Type} (d : List (String × α)) (k : String) :
    d.any (fun p => p.1 = k) = true ↔ k ∈ d.map Prod.fst := by
  induction d with
  | nil => simp
  | cons q rest ih =>
    simp only [List.any_cons, Bool.or_eq_true, List.map_cons, List.mem_cons, ih,
      decide_eq_true_eq]
    exact or_congr_left (by constructor <;> exact fun h => h.symm) 

theorem dictSet_keys_present {d : List (String × MermaidIcon)} {k : String} (v : MermaidIcon)
    (h : k ∈ d.map Prod.fst) : (dictSet d k v).map Prod.fst = d.map Prod.fst := by
  unfold dictSet
  rw [if_pos ((any_key_iff d k).2 h), List.map_map]
  apply List.map_congr_left
  intro p _
  by_cases hp : p.1 = k
  · simp [hp]
  · simp [hp]

theorem dictSet_absent {d : List (String × MermaidIcon)} {k : String} (v : MermaidIcon)
    (h : ¬ k ∈ d.map Prod.fst) : dictSet d k v = d ++ [(k, v)] := by
  unfold dictSet
  rw [if_neg]
  intro hc
  exact h ((any_key_iff d k).1 hc)

theorem dictSet_keys_nodup {d : List (String × MermaidIcon)} {k : String} (v : MermaidIcon)
    (h : (d.map Prod.fst).Nodup) : ((dictSet d k v).map Prod.fst).Nodup := by
  by_cases hk : k ∈ d.map Prod.fst
  · rw [dictSet_keys_present v hk]
    exact h
  · rw [dictSet_absent v hk]
    simp only [List.map_append, List.map_cons, List.map_nil]
    exact List.Nodup.append h (List.nodup_singleton k) (List.disjoint_singleton.2 hk)

theorem catAppend_keys_present {d : List (String × List String)} {cat : String} (tgt : String)
    (h : cat ∈ d.map Prod.fst) : (catAppend d cat tgt).map Prod.fst = d.map Prod.fst := by
  unfold catAppend
  rw [if_pos ((any_key_iff d cat).2 h), List.map_map]
  apply List.map_congr_left
  intro p _
  by_cases hp : p.1 = cat
  · simp [hp]
  · simp [hp]

theorem catAppend_absent {d : List (String × List String)} {cat : String} (tgt : String)
    (h : ¬ cat ∈ d.map Prod.fst) : catAppend d cat tgt = d ++ [(cat, [tgt])] := by
  unfold catAppend
  rw [if_neg]
  intro hc
  exact h ((any_key_iff d cat).1 hc)

theorem catAppend_keys_nodup {d : List (String × List String)} {cat : String} (tgt : String)
    (h : (d.map Prod.fst).Nodup) : ((catAppend d cat tgt).map Prod.fst).Nodup := by
  by_cases hk : cat ∈ d.map Prod.fst
  · rw [catAppend_keys_present tgt hk]
    exact h
  · rw [catAppend_absent tgt hk]
    simp only [List.map_append, List.map_cons, List.map_nil]
    exact List.Nodup.append h (List.nodup_singleton cat) (List.disjoint_singleton.2 hk)

theorem lookup_absent {α : Type} {d : List (String × α)} {k : String}
    (h : ¬ k ∈ d.map Prod.fst) : List.lookup k d = none := by
  induction d with
  | nil => rfl
  | cons q rest ih =>
    simp only [List.map_cons, List.mem_cons, not_or] at h
    obtain ⟨q1, q2⟩ := q
    rw [List.lookup_cons, beq_eq_false_iff_ne.2 (fun hc => h.1 hc)]
    exact ih h.2

theorem lookup_present {α : Type} {d : List (String × α)} {k : String}
    (h : k ∈ d.map Prod.fst) : (List.lookup k d).isSome = true := by
  induction d with
  | nil => simp at h
  | cons q rest ih =>
    obtain ⟨q1, q2⟩ := q
    rw [List.lookup_cons]
    cases hbe : (k == q1) with
    | true => rfl
    | false =>
      simp only [List.map_cons, List.mem_cons] at h
      rcases h with h | h
      · exact absurd h (beq_eq_false_iff_ne.1 hbe)
      · exact ih h

theorem lookup_append_one {α : Type} {d : List (String × α)} {k : String} (v : α)
    (h : ¬ k ∈ d.map Prod.fst) : List.lookup k (d ++ [(k, v)]) = some v := by
  induction d with
  | nil => simp [List.lookup_cons]
  | cons q rest ih =>
    simp only [List.map_cons, List.mem_cons, not_or] at h
    obtain ⟨q1, q2⟩ := q
    rw [List.cons_append, List.lookup_cons, beq_eq_false_iff_ne.2 (fun hc => h.1 hc)]
    exact ih h.2

theorem lookup_map_replace {d : List (String × List String)} (cat tgt : String) :
    List.lookup cat (d.map (fun p => if p.1 = cat then (p.1, p.2 ++ [tgt]) else p)) =
      (List.lookup cat d).map (fun v => v ++ [tgt]) := by
  induction d with
  | nil => rfl
  | cons q rest ih =>
    obtain ⟨q1, q2⟩ := q
    by_cases hq : q1 = cat
    · subst hq
      simp [List.lookup_cons]
    · have hbe : (cat == q1) = false := beq_eq_false_iff_ne.2 (fun hc => hq hc.symm)
      simp only [List.map_cons, if_neg hq, List.lookup_cons, hbe]
      exact ih

theorem lookup_map_replace_other {d : List (String × List String)} {cat cat' : String}
    (tgt : String) (h : cat' ≠ cat) :
    List.lookup cat' (d.map (fun p => if p.1 = cat then (p.1, p.2 ++ [tgt]) else p)) =
      List.lookup cat' d := by
  induction d with
  | nil => rfl
  | cons q rest ih =>
    obtain ⟨q1, q2⟩ := q
    by_cases hq : q1 = cat
    · have hbe : (cat' == q1) = false := beq_eq_false_iff_ne.2 (hq ▸ h)
      simp only [List.map_cons, if_pos hq, List.lookup_cons, hbe]
      exact ih
    · simp only [List.map_cons, if_neg hq, List.lookup_cons]
      cases cat' == q1 with
      | true => rfl
      | false => exact ih

theorem lookup_catAppend_same {d : List (String × List String)} (cat tgt : String) :
    List.lookup cat (catAppend d cat tgt) =
      some ((List.lookup cat d).getD [] ++ [tgt]) := by
  by_cases hk : cat ∈ d.map Prod.fst
  · unfold catAppend
    rw [if_pos ((any_key_iff d cat).2 hk), lookup_map_replace cat tgt]
    obtain ⟨v, hv⟩ := Option.isSome_iff_exists.1 (lookup_present hk)
    rw [hv]
    rfl
  · rw [catAppend_absent tgt hk, lookup_append_one _ hk, lookup_absent hk]
    rfl

theorem lookup_catAppend_other {d : List (String × List String)} {cat cat' : String}
    (tgt : String) (h : cat' ≠ cat) :
    List.lookup cat' (catAppend d cat tgt) = List.lookup cat' d := by
  by_cases hk : cat ∈ d.map Prod.fst
  · unfold catAppend
    rw [if_pos ((any_key_iff d cat).2 hk)]
    exact lookup_map_replace_other tgt h
  · rw [catAppend_absent tgt hk]
    induction d with
    | nil => simp [List.lookup_cons, beq_eq_false_iff_ne.2 h]
    | cons q rest ih =>
      simp only [List.map_cons, List.mem_cons, not_or] at hk
      obtain ⟨q1, q2⟩ := q
      rw [List.cons_append, List.lookup_cons, List.lookup_cons]
      cases cat' == q1 with
      | true => rfl
      | false => exact ih hk.2

/-! ### Fold invariants of the aggregation loop -/

/-- The icons of a list for which the embedding step succeeds. -/
def successes (fs : FS) (l : List Icon) : List Icon :=
  l.filter (fun j => (embedEntry fs j).isSome)

theorem addIcon_total (m : Mermaid) (cat tgt : String) (e : MermaidIcon) :
    (addIcon m cat tgt e).total = m.total + 1 := rfl

theorem addIcon_icons (m : Mermaid) (cat tgt : String) (e : MermaidIcon) :
    (addIcon m cat tgt e).icons = dictSet m.icons tgt e := rfl

theorem addIcon_cats (m : Mermaid) (cat tgt : String) (e : MermaidIcon) :
    (addIcon m cat tgt e).categories = catAppend m.categories cat tgt := rfl

theorem foldl_total (fs : FS) (l : List Icon) (m : Mermaid) :
    (l.foldl (processIcon fs) m).total = m.total + (successes fs l).length := by
  induction l generalizing m with
  | nil => simp [successes]
  | cons j rest ih =>
    rw [List.foldl_cons]
    cases hE : embedEntry fs j with
    | none =>
      rw [processIcon_skip m hE, ih]
      unfold successes
      rw [List.filter_cons_of_neg (by simp [hE])]
    | some e =>
      rw [processIcon_add m hE, ih]
      unfold successes
      rw [List.filter_cons_of_pos (by simp [hE]), addIcon_total, List.length_cons]
      omega

theorem foldl_icons_nodup (fs : FS) (l : List Icon) (m : Mermaid)
    (h : (m.icons.map Prod.fst).Nodup) :
    ((l.foldl (processIcon fs) m).icons.map Prod.fst).Nodup := by
  induction l generalizing m with
  | nil => exact h
  | cons j rest ih =>
    rw [List.foldl_cons]
    cases hE : embedEntry fs j with
    | none =>
      rw [processIcon_skip m hE]
      exact ih m h
    | some e =>
      rw [processIcon_add m hE]
      refine ih _ ?_
      rw [addIcon_icons]
      exact dictSet_keys_nodup e h

theorem foldl_icons (fs : FS) (l : List Icon) (m : Mermaid)
    (hnd : (l.map Icon.target).Nodup)
    (hfresh : ∀ j ∈ l, ¬ j.target ∈ m.icons.map Prod.fst) :
    (l.foldl (processIcon fs) m).icons =
      m.icons ++ l.filterMap (fun j => (embedEntry fs j).map (fun e => (j.target, e))) := by
  induction l generalizing m with
  | nil => simp
  | cons j rest ih =>
    rw [List.foldl_cons, List.filterMap_cons]
    have hnd' : (rest.map Icon.target).Nodup := (List.nodup_cons.1 (by simpa using hnd)).2
    have hjr : ¬ j.target ∈ rest.map Icon.target :=
      (List.nodup_cons.1 (by simpa using hnd)).1
    cases hE : embedEntry fs j with
    | none =>
      rw [processIcon_skip m hE]
      exact ih m hnd' (fun i hi => hfresh i (List.mem_cons_of_mem _ hi))
    | some e =>
      rw [processIcon_add m hE]
      rw [ih (addIcon m j.category j.target e) hnd' ?fresh]
      · rw [addIcon_icons, dictSet_absent e (hfresh j (List.mem_cons_self j rest))]
        simp
      case fresh =>
        intro i hi
        rw [addIcon_icons, dictSet_absent e (hfresh j (List.mem_cons_self j rest)),
          List.map_append, List.mem_append]
        rintro (hm | hm)
        · exact hfresh i (List.mem_cons_of_mem _ hi) hm
        · simp only [List.map_cons, List.map_nil, List.mem_singleton] at hm
          exact hjr (hm ▸ List.mem_map_of_mem Icon.target hi)

/-- Key-accumulation step of a Python dict built by first insertion. -/
def seenInsert (acc : List String) (c : String) : List String :=
  if c ∈ acc then acc else acc ++ [c]

theorem seenInsert_mem {acc : List String} {c : String} (h : c ∈ acc) :
    seenInsert acc c = acc := by
  unfold seenInsert
  rw [if_pos h]

theorem seenInsert_new {acc : List String} {c : String} (h : ¬ c ∈ acc) :
    seenInsert acc c = acc ++ [c] := by
  unfold seenInsert
  rw [if_neg h]

theorem mem_foldl_seenInsert (l : List String) (acc : List String) (x : String) :
    x ∈ l.foldl seenInsert acc ↔ x ∈ acc ∨ x ∈ l := by
  induction l generalizing acc with
  | nil => simp
  | cons c rest ih =>
    rw [List.foldl_cons]
    by_cases hc : c ∈ acc
    · rw [seenInsert_mem hc, ih]
      constructor
      · rintro (h | h)
        · exact Or.inl h
        · exact Or.inr (List.mem_cons_of_mem _ h)
      · rintro (h | h)
        · exact Or.inl h
        · rcases List.mem_cons.1 h with h | h
          · exact Or.inl (h ▸ hc)
          · exact Or.inr h
    · rw [seenInsert_new hc, ih]
      simp only [List.mem_append, List.mem_singleton, List.mem_cons]
      tauto

theorem catAppend_keys (d : List (String × List String)) (cat tgt : String) :
    (catAppend d cat tgt).map Prod.fst = seenInsert (d.map Prod.fst) cat := by
  unfold seenInsert
  by_cases hk : cat ∈ d.map Prod.fst
  · rw [if_pos hk]
    exact catAppend_keys_present tgt hk
  · rw [if_neg hk, catAppend_absent tgt hk]
    simp

theorem foldl_cats_keys (fs : FS) (l : List Icon) (m : Mermaid) :
    (l.foldl (processIcon fs) m).categories.map Prod.fst =
      ((successes fs l).map Icon.category).foldl seenInsert (m.categories.map Prod.fst) := by
  induction l generalizing m with
  | nil => simp [successes]
  | cons j rest ih =>
    rw [List.foldl_cons]
    cases hE : embedEntry fs j with
    | none =>
      rw [processIcon_skip m hE, ih]
      unfold successes
      rw [List.filter_cons_of_neg (by simp [hE])]
    | some e =>
      rw [processIcon_add m hE, ih]
      unfold successes
      rw [List.filter_cons_of_pos (by simp [hE]), List.map_cons, List.foldl_cons]
      rw [addIcon_cats, catAppend_keys]

/-- Combine an existing category group with the targets appended later. -/
def combineOpt (o : Option (List String)) (new : List String) : Option (List String) :=
  match o with
  | some v => some (v ++ new)
  | none => if new = [] then none else some new

theorem combineOpt_nil (o : Option (List String)) : combineOpt o [] = o := by
  cases o <;> simp [combineOpt]

theorem combineOpt_cons (o : Option (List String)) (t : String) (r : List String) :
    combineOpt (some (o.getD [] ++ [t])) r = combineOpt o (t :: r) := by
  cases o with
  | none => simp [combineOpt]
  | some v => simp [combineOpt]

theorem foldl_cats_lookup (fs : FS) (l : List Icon) (m : Mermaid) (cat : String) :
    List.lookup cat (l.foldl (processIcon fs) m).categories =
      combineOpt (List.lookup cat m.categories)
        (((successes fs l).filter (fun j => j.category = cat)).map Icon.target) := by
  induction l generalizing m with
  | nil => simp [successes, combineOpt_nil]
  | cons j rest ih =>
    rw [List.foldl_cons]
    cases hE : embedEntry fs j with
    | none =>
      rw [processIcon_skip m hE, ih]
      unfold successes
      rw [List.filter_cons_of_neg (by simp [hE])]
    | some e =>
      rw [processIcon_add m hE, ih]
      unfold successes
      rw [List.filter_cons_of_pos (by simp [hE])]
      by_cases hc : j.category = cat
      · rw [List.filter_cons_of_pos (by simp [hc]), List.map_cons]
        rw [addIcon_cats, ← hc, lookup_catAppend_same, hc, combineOpt_cons]
      · rw [List.filter_cons_of_neg (by simp [hc])]
        rw [addIcon_cats, lookup_catAppend_other _ (fun hx => hc hx.symm)]

theorem foldl_skip_middle (fs : FS) (m : Mermaid) (a b : List Icon) {j : Icon}
    (hE : embedEntry fs j = none) :
    (a ++ j :: b).foldl (processIcon fs) m = (a ++ b).foldl (processIcon fs) m := by
  rw [List.foldl_append, List.foldl_append, List.foldl_cons, processIcon_skip _ hE]

/-! ### Sorting lemmas -/

theorem iconLe_iff (a b : Icon) : iconLe a b = true ↔
    (a.category < b.category ∨ (a.category = b.category ∧ a.target ≤ b.target)) := by
  unfold iconLe
  simp [Bool.or_eq_true, Bool.and_eq_true, decide_eq_true_eq]

theorem iconLe_trans : ∀ a b c : Icon, iconLe a b = true → iconLe b c = true →
    iconLe a c = true := by
  intro a b c hab hbc
  rw [iconLe_iff] at hab hbc ⊢
  rcases hab with h1 | ⟨h1, h1'⟩ <;> rcases hbc with h2 | ⟨h2, h2'⟩
  · exact Or.inl (lt_trans h1 h2)
  · exact Or.inl (h2 ▸ h1)
  · exact Or.inl (h1 ▸ h2)
  · exact Or.inr ⟨h1.trans h2, le_trans h1' h2'⟩

theorem iconLe_total : ∀ a b : Icon, (iconLe a b || iconLe b a) = true := by
  intro a b
  rw [Bool.or_eq_true, iconLe_iff, iconLe_iff]
  rcases lt_trichotomy a.category b.category with h | h | h
  · exact Or.inl (Or.inl h)
  · rcases le_total a.target b.target with ht | ht
    · exact Or.inl (Or.inr ⟨h, ht⟩)
    · exact Or.inr (Or.inr ⟨h.symm, ht⟩)
  · exact Or.inr (Or.inl h)

theorem iconLe_antisymm_key {a b : Icon} (hab : iconLe a b = true)
    (hba : iconLe b a = true) : iconKey a = iconKey b := by
  rw [iconLe_iff] at hab hba
  unfold iconKey
  rcases hab with h1 | ⟨h1, h1'⟩
  · rcases hba with h2 | ⟨h2, h2'⟩
    · exact absurd h2 (lt_asymm h1)
    · exact absurd h2 (ne_of_gt h1)
  · rcases hba with h2 | ⟨h2, h2'⟩
    · rw [h1] at h2
      exact absurd h2 (lt_irrefl _)
    · simp [h1, le_antisymm h1' h2']

theorem sortIcons_perm (l : List Icon) : (sortIcons l).Perm l :=
  List.mergeSort_perm l iconLe

theorem sortIcons_sorted (l : List Icon) :
    (sortIcons l).Pairwise (fun a b => iconLe a b = true) :=
  List.sorted_mergeSort iconLe_trans iconLe_total l

theorem target_nodup_key_nodup {l : List Icon} (h : (l.map Icon.target).Nodup) :
    (l.map iconKey).Nodup := by
  have h' : l.Pairwise (fun a b => a.target ≠ b.target) := List.pairwise_map.1 h
  exact List.pairwise_map.2 (h'.imp fun hne hk => hne (congrArg Prod.snd hk))

theorem sortIcons_eq_of_perm {l₁ l₂ : List Icon} (h : l₁.Perm l₂)
    (hnd : (l₁.map iconKey).Nodup) : sortIcons l₁ = sortIcons l₂ := by
  have hperm : (sortIcons l₁).Perm (sortIcons l₂) :=
    (sortIcons_perm l₁).trans (h.trans (sortIcons_perm l₂).symm)
  haveI : IsAntisymm Icon (fun a b => iconLe a b = true ∧ iconKey a ≠ iconKey b) :=
    ⟨fun a b hab hba => absurd (iconLe_antisymm_key hab.1 hba.1) hab.2⟩
  have hs : ∀ l : List Icon, (l.map iconKey).Nodup →
      List.Sorted (fun a b => iconLe a b = true ∧ iconKey a ≠ iconKey b) (sortIcons l) := by
    intro l hl
    have h2 : (sortIcons l).Pairwise (fun a b => iconKey a ≠ iconKey b) := by
      have hmapnd : ((sortIcons l).map iconKey).Nodup :=
        (((sortIcons_perm l).map iconKey).nodup_iff).2 hl
      exact List.pairwise_map.1 hmapnd
    exact (sortIcons_sorted l).and h2
  exact List.eq_of_perm_of_sorted hperm (hs l₁ hnd) (hs l₂ ((h.map iconKey).nodup_iff.1 hnd))

/-! ### Remaining support lemmas -/

theorem lookup_dictSet_self (d : List (String × MermaidIcon)) (k : String) (v : MermaidIcon) :
    List.lookup k (dictSet d k v) = some v := by
  by_cases hk : k ∈ d.map Prod.fst
  · unfold dictSet
    rw [if_pos ((any_key_iff d k).2 hk)]
    induction d with
    | nil => simp at hk
    | cons q rest ih =>
      obtain ⟨q1, q2⟩ := q
      by_cases hq : q1 = k
      · subst hq
        simp [List.lookup_cons]
      · have hbe : (k == q1) = false := beq_eq_false_iff_ne.2 (fun hc => hq hc.symm)
        have hk' : k ∈ rest.map Prod.fst := by
          rcases List.mem_cons.1 hk with h | h
          · exact absurd h.symm hq
          · exact h
        simp only [List.map_cons, if_neg hq, List.lookup_cons, hbe]
        exact ih hk'
  · rw [dictSet_absent v hk]
    exact lookup_append_one v hk

theorem foldl_meta (fs : FS) (l : List Icon) (m : Mermaid) :
    (l.foldl (processIcon fs) m).version = m.version ∧
    (l.foldl (processIcon fs) m).lastModified = m.lastModified := by
  induction l generalizing m with
  | nil => exact ⟨rfl, rfl⟩
  | cons j rest ih =>
    rw [List.foldl_cons]
    cases hE : embedEntry fs j with
    | none =>
      rw [processIcon_skip m hE]
      exact ih m
    | some e =>
      rw [processIcon_add m hE]
      exact ih (addIcon m j.category j.target e)

theorem successes_perm {fs : FS} {l₁ l₂ : List Icon} (h : l₁.Perm l₂) :
    (successes fs l₁).Perm (successes fs l₂) :=
  h.filter (fun j => (embedEntry fs j).isSome)

/-! ### Claim theorems -/

/-- C8: environment verification exits the process with the non-zero
status 1 on a wrong working directory, a missing or unloadable
configuration file, a missing required source path, or an exception while
launching the rendering toolchain; and a launch that completes with any
exit status `code` (non-zero included) is not a verification failure: the
run then exits 0 under `--check-env` or proceeds with the configuration. -/
theorem C8_verify_environment_failures (env : Env) :
    (env.cwdLast2 ≠ ["gcp-icons-for-plantuml", "scripts"] →
      verify_environment env = .exitWith 1) ∧
    (env.configLoad = none → verify_environment env = .exitWith 1) ∧
    (env.commonPumlExists = false → verify_environment env = .exitWith 1) ∧
    (env.officialExists = false → verify_environment env = .exitWith 1) ∧
    (env.javaRun = none → verify_environment env = .exitWith 1) ∧
    (∀ cfg code, env.cwdLast2 = ["gcp-icons-for-plantuml", "scripts"] →
      env.configLoad = some cfg → env.commonPumlExists = true → env.officialExists = true →
      env.javaRun = some code →
      verify_environment env =
        if env.checkEnvFlag then .exitWith 0 else .proceed cfg) := by
  refine ⟨?_, ?_, ?_, ?_, ?_, ?_⟩
  · intro h
    unfold verify_environment
    rw [if_pos h]
  · intro h
    unfold verify_environment
    rw [h]
    split
    · rfl
    · rfl
  · intro h
    unfold verify_environment
    rw [h]
    split
    · rfl
    · split
      · rfl
      · rfl
  · intro h
    unfold verify_environment
    rw [h]
    split
    · rfl
    · split
      · rfl
      · split
        · rfl
        · rfl
  · intro h
    unfold verify_environment
    rw [h]
    split
    · rfl
    · split
      · rfl
      · split
        · rfl
        · split
          · rfl
          · rfl
  · intro cfg code hcwd hcfg hpuml hoff hjava
    unfold verify_environment
    rw [hcfg, hpuml, hoff, hjava, if_neg (by simp [hcwd])]
    simp

/-- An event of the setup phase that creates a category directory. -/
def isMkdirEvent : BuildEvent → Prop
  | .mkdirCat _ => True
  | .renderJob _ => False

/-- An event of the setup phase that submits a render job to the pool. -/
def isRenderEvent : BuildEvent → Prop
  | .mkdirCat _ => False
  | .renderJob _ => True

theorem trace_mkdir_lt (icons : List Icon) (i : Fin (setupTrace icons).length)
    (hi : isMkdirEvent ((setupTrace icons).get i)) : (i : Nat) < (mkdirCats icons).length := by
  by_contra hge
  push_neg at hge
  have hgl : ((mkdirCats icons).map BuildEvent.mkdirCat).length ≤ (i : Nat) := by
    simpa using hge
  have hbound : (i : Nat) - ((mkdirCats icons).map BuildEvent.mkdirCat).length <
      (icons.map BuildEvent.renderJob).length := by
    have hl := i.isLt
    simp only [setupTrace, List.length_append, List.length_map] at hl ⊢
    omega
  have hget : (setupTrace icons).get i =
      (icons.map BuildEvent.renderJob).get
        ⟨(i : Nat) - ((mkdirCats icons).map BuildEvent.mkdirCat).length, hbound⟩ := by
    rw [List.get_eq_getElem, List.get_eq_getElem]
    exact List.getElem_append_right hgl
  have hmem : (setupTrace icons).get i ∈ icons.map BuildEvent.renderJob := by
    rw [hget]
    exact List.getElem_mem _
  obtain ⟨jb, _, hjb⟩ := List.mem_map.1 hmem
  rw [← hjb] at hi
  exact hi.elim

theorem trace_render_ge (icons : List Icon) (j : Fin (setupTrace icons).length)
    (hj : isRenderEvent ((setupTrace icons).get j)) :
    (mkdirCats icons).length ≤ (j : Nat) := by
  by_contra hlt
  push_neg at hlt
  have hbound : (j : Nat) < ((mkdirCats icons).map BuildEvent.mkdirCat).length := by
    simpa using hlt
  have hget : (setupTrace icons).get j =
      ((mkdirCats icons).map BuildEvent.mkdirCat).get ⟨(j : Nat), hbound⟩ := by
    rw [List.get_eq_getElem, List.get_eq_getElem]
    exact List.getElem_append_left (by simpa using hlt)
  have hmem : (setupTrace icons).get j ∈ (mkdirCats icons).map BuildEvent.mkdirCat := by
    rw [hget]
    exact List.getElem_mem _
  obtain ⟨c, _, hc⟩ := List.mem_map.1 hmem
  rw [← hc] at hj
  exact hj.elim

/-- C7: before any render job is submitted, `main` creates one output
subdirectory per distinct category of the discovered icons: in the setup
trace every mkdir event precedes every render-job event, the mkdir list
holds each discovered category exactly once, and — whatever directories
already existed — after the (idempotent) mkdir loop every icon's category
directory exists. -/
theorem C7_dirs_before_jobs (icons : List Icon) (dirs0 : List String) :
    (∀ i j : Fin (setupTrace icons).length,
      isMkdirEvent ((setupTrace icons).get i) → isRenderEvent ((setupTrace icons).get j) →
      (i : Nat) < (j : Nat)) ∧
    (mkdirCats icons).Nodup ∧
    (∀ c, c ∈ mkdirCats icons ↔ c ∈ icons.map Icon.category) ∧
    (∀ jb ∈ icons, jb.category ∈ dirsAfterSetup dirs0 icons) ∧
    (∀ d ∈ dirs0, d ∈ dirsAfterSetup dirs0 icons) ∧
    setupTrace icons = (mkdirCats icons).map .mkdirCat ++ icons.map .renderJob := by
  have hmem : ∀ c, c ∈ mkdirCats icons ↔ c ∈ icons.map Icon.category := by
    intro c
    unfold mkdirCats
    rw [(List.mergeSort_perm _ _).mem_iff, List.mem_dedup]
  have hdirs : dirsAfterSetup dirs0 icons = (mkdirCats icons).foldl seenInsert dirs0 := rfl
  refine ⟨?_, ?_, hmem, ?_, ?_, rfl⟩
  · intro i j hi hj
    exact Nat.lt_of_lt_of_le (trace_mkdir_lt icons i hi) (trace_render_ge icons j hj)
  · unfold mkdirCats
    exact ((List.mergeSort_perm _ _).nodup_iff).2 (List.nodup_dedup _)
  · intro jb hjb
    rw [hdirs, mem_foldl_seenInsert]
    exact Or.inr ((hmem jb.category).2 (List.mem_map_of_mem Icon.category hjb))
  · intro d hd
    rw [hdirs, mem_foldl_seenInsert]
    exact Or.inl hd

/-- C4: the manifest's `info.version` and `lastModified` fields equal the
module-level constants for every filesystem state and every icon list —
they are fixed values computed from the hard-coded date `2025-02-07`
(epoch seconds 1738886400) and the hard-coded version string `"20.0"`, not
from the run's wall-clock time; and `aggregate` itself is a pure function
of the filesystem snapshot and icon list, so identical inputs give
identical outputs. -/
theorem C4_fixed_metadata :
    (∀ (fs : FS) (l : List Icon),
      (aggregate fs l).mermaid.version = "20.0" ∧
      (aggregate fs l).mermaid.lastModified = 1738886400) ∧
    release_version = "20.0" ∧
    release_utc_seconds = epochSecondsOfDate 2025 2 7 ∧
    epochSecondsOfDate 2025 2 7 = 1738886400 := by
  refine ⟨?_, rfl, rfl, by decide⟩
  intro fs l
  have h := foldl_meta fs (sortIcons l) initMermaid
  constructor
  · rw [show (aggregate fs l).mermaid = (sortIcons l).foldl (processIcon fs) initMermaid from rfl,
      h.1]
    rfl
  · rw [show (aggregate fs l).mermaid = (sortIcons l).foldl (processIcon fs) initMermaid from rfl,
      h.2]
    show release_utc_seconds = 1738886400
    decide

/-- C2: in every run the target-name keys of the manifest's `icons`
mapping are pairwise distinct, and `info.total` equals the number of
icons of the run whose embedding step succeeded; each successful
embedding raises the total by exactly one and each failed icon leaves it
unchanged, so discovered-but-failed icons are not counted. -/
theorem C2_manifest_invariants (fs : FS) (l : List Icon) :
    ((aggregate fs l).mermaid.icons.map Prod.fst).Nodup ∧
    (aggregate fs l).mermaid.total = (successes fs l).length ∧
    (∀ (m : Mermaid) (j : Icon) (e : MermaidIcon), embedEntry fs j = some e →
      (processIcon fs m j).total = m.total + 1) ∧
    (∀ (m : Mermaid) (j : Icon), embedEntry fs j = none →
      (processIcon fs m j).total = m.total) := by
  refine ⟨?_, ?_, ?_, ?_⟩
  · exact foldl_icons_nodup fs (sortIcons l) initMermaid (by simp [initMermaid])
  · rw [show (aggregate fs l).mermaid = (sortIcons l).foldl (processIcon fs) initMermaid from rfl,
      foldl_total]
    rw [show initMermaid.total = 0 from rfl, Nat.zero_add]
    exact (successes_perm (sortIcons_perm l)).length_eq
  · intro m j e hE
    rw [processIcon_add m hE, addIcon_total]
  · intro m j hE
    rw [processIcon_skip m hE]

/-- C3: whenever the embedding step of one icon fails — the file is
missing or of an unsupported kind, the vector file fails to parse, its
attributes fail to extract, or the raster bytes fail to read — the
mermaid object is left completely unchanged by that icon (no change to
`info.total`, `icons` or `categories`), and folding the remaining icons
proceeds exactly as if the failing icon were absent. -/
theorem C3_failure_skips_icon (fs : FS) :
    (∀ (m : Mermaid) (fname cat tgt : String), embedFile fs fname = none →
      build_mermaid_icon fs m fname cat tgt = m) ∧
    (∀ fname, fs fname = none → embedFile fs fname = none) ∧
    (∀ fname fd, fs fname = some fd → fd.svgParse = none →
      pyEndsWith fname ".svg" = true → embedFile fs fname = none) ∧
    (∀ fname fd root, fs fname = some fd → fd.svgParse = some root →
      svgExtract root = none → pyEndsWith fname ".svg" = true → embedFile fs fname = none) ∧
    (∀ fname fd, fs fname = some fd → fd.bytes = none →
      pyEndsWith fname ".svg" = false → pyEndsWith fname ".png" = true →
      embedFile fs fname = none) ∧
    (∀ (m : Mermaid) (j : Icon) (a b : List Icon), embedEntry fs j = none →
      (a ++ j :: b).foldl (processIcon fs) m = (a ++ b).foldl (processIcon fs) m) := by
  refine ⟨?_, ?_, ?_, ?_, ?_, ?_⟩
  · intro m fname cat tgt h
    exact build_skip m cat tgt h
  · intro fname h
    unfold embedFile
    rw [h]
    simp
  · intro fname fd hfd hparse hsvg
    unfold embedFile
    rw [hfd, hsvg]
    simp only [Option.some_bind]
    rw [hparse]
    simp
  · intro fname fd root hfd hparse hext hsvg
    unfold embedFile
    rw [hfd, hsvg]
    simp only [Option.some_bind]
    rw [hparse]
    simp [hext]
  · intro fname fd hfd hbytes hsvg hpng
    unfold embedFile
    rw [hfd, hsvg, hpng]
    simp only [Option.some_bind]
    rw [hbytes]
    simp
  · intro m j a b hE
    exact foldl_skip_middle fs m a b hE

/-- C6: for a raster-only icon — no vector sibling exists — whose bytes
read as `B`, the manifest entry's body is exactly
`"data:image/png;base64,"` followed by the base64 encoding of `B`, and
its width and height are the default 64.  (`hnotsvg` records that the
discovered `.png` path is not itself a `.svg` path.) -/
theorem C6_raster_data_uri (fs : FS) (m : Mermaid) (j : Icon) (fd : FileData) (B : List Nat)
    (hpng : pyEndsWith j.filename ".png" = true)
    (hnotsvg : pyEndsWith j.filename ".svg" = false)
    (hnosib : fs (sibSvgName j.filename) = none)
    (hfs : fs j.filename = some fd)
    (hbytes : fd.bytes = some B) :
    processIcon fs m j =
      addIcon m j.category j.target
        ⟨"data:image/png;base64," ++ base64String B, 64, 64⟩ ∧
    List.lookup j.target (processIcon fs m j).icons =
      some ⟨"data:image/png;base64," ++ base64String B, 64, 64⟩ := by
  have hE : embedEntry fs j =
      some ⟨"data:image/png;base64," ++ base64String B, 64, 64⟩ := by
    unfold embedEntry
    rw [if_neg (by simp [hnosib])]
    unfold embedFile
    rw [hfs, hnotsvg, hpng]
    simp only [Option.some_bind]
    rw [hbytes]
    simp [pngDataUri]
  refine ⟨processIcon_add m hE, ?_⟩
  rw [processIcon_add m hE, addIcon_icons]
  exact lookup_dictSet_self ..

/-- C9: when a vector sibling file exists for an icon, only the vector
file feeds the manifest: if its parse (or its attribute extraction)
fails, the icon is omitted from the manifest entirely — the mermaid
object is returned unchanged whatever the raster file holds — and when it
succeeds the entry is built from the vector data alone. -/
theorem C9_vector_never_falls_back (fs : FS) (m : Mermaid) (j : Icon) (fd : FileData)
    (hsib : fs (sibSvgName j.filename) = some fd)
    (hsvgext : pyEndsWith (sibSvgName j.filename) ".svg" = true) :
    (fd.svgParse = none → processIcon fs m j = m) ∧
    (∀ root, fd.svgParse = some root → svgExtract root = none → processIcon fs m j = m) ∧
    (∀ root body w h, fd.svgParse = some root → svgExtract root = some (body, w, h) →
      processIcon fs m j = addIcon m j.category j.target ⟨body, w, h⟩) := by
  have hs : (fs (sibSvgName j.filename)).isSome = true := by
    rw [hsib]
    rfl
  have hcond : (pyEndsWith (sibSvgName j.filename) ".svg" &&
      (fs (sibSvgName j.filename)).isSome) = true := by
    rw [hsvgext, hsib]
    rfl
  refine ⟨?_, ?_, ?_⟩
  · intro hparse
    refine processIcon_skip m ?_
    unfold embedEntry
    rw [if_pos hs]
    unfold embedFile
    rw [if_pos hcond, hsib]
    simp only [Option.some_bind]
    rw [hparse]
    rfl
  · intro root hparse hext
    refine processIcon_skip m ?_
    unfold embedEntry
    rw [if_pos hs]
    unfold embedFile
    rw [if_pos hcond, hsib]
    simp only [Option.some_bind]
    rw [hparse]
    simp only [Option.some_bind]
    rw [hext]
    rfl
  · intro root body w h hparse hext
    refine processIcon_add m ?_
    unfold embedEntry
    rw [if_pos hs]
    unfold embedFile
    rw [if_pos hcond, hsib]
    simp only [Option.some_bind]
    rw [hparse]
    simp only [Option.some_bind]
    rw [hext]
    rfl

/-- C10: a category name is a key of the manifest's `categories` mapping
exactly when at least one icon of that category was successfully
embedded; keys appear in order of first successful embedding (groups are
created lazily), and the group of a category lists exactly the target
names of its successfully embedded icons, in the sorted
(category, target) processing order. -/
theorem C10_category_groups (fs : FS) (l : List Icon) :
    ((aggregate fs l).mermaid.categories.map Prod.fst =
      ((successes fs (sortIcons l)).map Icon.category).foldl seenInsert []) ∧
    (∀ cat, cat ∈ (aggregate fs l).mermaid.categories.map Prod.fst ↔
      cat ∈ (successes fs l).map Icon.category) ∧
    (∀ cat, List.lookup cat (aggregate fs l).mermaid.categories =
      combineOpt none
        (((successes fs (sortIcons l)).filter (fun j => j.category = cat)).map Icon.target)) := by
  have hagg : (aggregate fs l).mermaid = (sortIcons l).foldl (processIcon fs) initMermaid := rfl
  refine ⟨?_, ?_, ?_⟩
  · rw [hagg, foldl_cats_keys]
    rfl
  · intro cat
    rw [hagg, foldl_cats_keys,
      show initMermaid.categories.map Prod.fst = ([] : List String) from rfl,
      mem_foldl_seenInsert]
    simp only [List.not_mem_nil, false_or]
    exact ((successes_perm (sortIcons_perm l)).map Icon.category).mem_iff
  · intro cat
    rw [hagg, foldl_cats_lookup,
      show List.lookup cat initMermaid.categories = none from rfl]

/-- C1: the Markdown rows, the theme elements and the manifest's `icons`
mapping hold exactly one entry per icon (for the Markdown/theme) resp.
per successfully embedded icon (for the manifest), in the order of the
icon list sorted by (category, target); the sorted list is a permutation
of the input and is sorted, and — given distinct target names — the whole
aggregate output is invariant under permuting the discovered list, i.e.
independent of filesystem enumeration order. -/
theorem C1_sorted_outputs (fs : FS) (l₁ l₂ : List Icon)
    (hperm : l₁.Perm l₂) (hnd : (l₁.map Icon.target).Nodup) :
    aggregate fs l₁ = aggregate fs l₂ ∧
    (aggregate fs l₁).markdown = "# GCP Symbols\n\n" :: (sortIcons l₁).map markdownRow ∧
    (aggregate fs l₁).elements = (sortIcons l₁).map themeElem ∧
    (aggregate fs l₁).mermaid.icons =
      (sortIcons l₁).filterMap (fun j => (embedEntry fs j).map (fun e => (j.target, e))) ∧
    (sortIcons l₁).Perm l₁ ∧
    (sortIcons l₁).Pairwise (fun a b => iconLe a b = true) := by
  refine ⟨?_, rfl, rfl, ?_, sortIcons_perm l₁, sortIcons_sorted l₁⟩
  · unfold aggregate
    rw [sortIcons_eq_of_perm hperm (target_nodup_key_nodup hnd)]
  · have hnd' : ((sortIcons l₁).map Icon.target).Nodup :=
      (((sortIcons_perm l₁).map Icon.target).nodup_iff).2 hnd
    have hch := foldl_icons fs (sortIcons l₁) initMermaid hnd' (by simp [initMermaid])
    rw [show (aggregate fs l₁).mermaid = (sortIcons l₁).foldl (processIcon fs) initMermaid
      from rfl, hch]
    simp [initMermaid]

/-! ### The xmlns-stripping substitution on serialized markup -/

theorem reSub_nil : reSubXmlnsAux [] = [] := by
  rw [reSubXmlnsAux]

theorem reSub_step_nows {c : Char} {cs : List Char} (h : c.isWhitespace = false) :
    reSubXmlnsAux (c :: cs) = c :: reSubXmlnsAux cs := by
  rw [reSubXmlnsAux, h]
  simp

theorem reSub_step_noxmlns {c : Char} {cs : List Char}
    (h : cs.take 5 ≠ ['x', 'm', 'l', 'n', 's']) :
    reSubXmlnsAux (c :: cs) = c :: reSubXmlnsAux cs := by
  rw [reSubXmlnsAux]
  simp [h]

theorem reSub_step_match {c : Char} {cs r1 r2 : List Char}
    (hw : c.isWhitespace = true) (ht : cs.take 5 = ['x', 'm', 'l', 'n', 's'])
    (h1 : dropThroughQuote (cs.drop 5) = some r1) (h2 : dropThroughQuote r1 = some r2) :
    reSubXmlnsAux (c :: cs) = reSubXmlnsAux r2 := by
  rw [reSubXmlnsAux]
  rw [if_pos (by rw [hw, ht]; simp)]
  split
  · rename_i r1' heq1
    rw [heq1] at h1
    injection h1 with h1
    subst h1
    split
    · rename_i r2' heq2
      rw [heq2] at h2
      injection h2 with h2
      rw [h2]
    · rename_i heq2
      rw [heq2] at h2
      cases h2
  · rename_i heq1
    rw [heq1] at h1
    cases h1

/-- No position of the list starts a whitespace character followed by the
literal `xmlns` — on such strings the substitution is the identity, and
no `xmlns` declaration (which the serializer always writes after
whitespace) can occur in them. -/
def noWsXmlns : List Char → Bool
  | [] => true
  | c :: cs =>
    (!(c.isWhitespace && decide (cs.take 5 = ['x', 'm', 'l', 'n', 's']))) && noWsXmlns cs

theorem nwx_head {c : Char} {cs : List Char} (h : noWsXmlns (c :: cs) = true) :
    c.isWhitespace = false ∨ cs.take 5 ≠ ['x', 'm', 'l', 'n', 's'] := by
  by_cases hw : c.isWhitespace = true
  · right
    intro ht
    unfold noWsXmlns at h
    rw [hw, ht] at h
    simp at h
  · exact Or.inl (by simpa using hw)

theorem nwx_tail {c : Char} {cs : List Char} (h : noWsXmlns (c :: cs) = true) :
    noWsXmlns cs = true := by
  unfold noWsXmlns at h
  rw [Bool.and_eq_true] at h
  exact h.2

theorem nwx_suffix {a b : List Char} (h : noWsXmlns (a ++ b) = true) :
    noWsXmlns b = true := by
  induction a with
  | nil => exact h
  | cons c cs ih => exact ih (nwx_tail h)

theorem take5_ge_length {cs : List Char} (h : cs.take 5 = ['x', 'm', 'l', 'n', 's']) :
    5 ≤ cs.length := by
  have hl := congrArg List.length h
  rw [List.length_take] at hl
  simp only [List.length_cons, List.length_nil] at hl
  omega

theorem nwx_prefix {a b : List Char} (h : noWsXmlns (a ++ b) = true) :
    noWsXmlns a = true := by
  induction a with
  | nil => rfl
  | cons c cs ih =>
    rw [List.cons_append] at h
    have h2 := ih (nwx_tail h)
    unfold noWsXmlns
    rw [h2, Bool.and_true, Bool.not_eq_true', Bool.and_eq_false_iff]
    by_cases hw : c.isWhitespace = true
    · right
      rw [decide_eq_false_iff_not]
      intro ht
      have hlen := take5_ge_length ht
      rcases nwx_head h with h1 | h1
      · rw [hw] at h1
        cases h1
      · exact h1 (by rw [List.take_append_of_le_length hlen, ht])
    · exact Or.inl (by simpa using hw)

theorem resub_id {l : List Char} (h : noWsXmlns l = true) : reSubXmlnsAux l = l := by
  induction l with
  | nil => exact reSub_nil
  | cons c cs ih =>
    rcases nwx_head h with hw | ht
    · rw [reSub_step_nows hw, ih (nwx_tail h)]
    · rw [reSub_step_noxmlns ht, ih (nwx_tail h)]

theorem resub_append_noWs {P t : List Char} (hP : ∀ c ∈ P, c.isWhitespace = false) :
    reSubXmlnsAux (P ++ t) = P ++ reSubXmlnsAux t := by
  induction P with
  | nil => simp
  | cons c cs ih =>
    rw [List.cons_append, reSub_step_nows (hP c (List.mem_cons_self c cs)),
      ih (fun d hd => hP d (List.mem_cons_of_mem c hd))]
    rfl

theorem resub_boundary {B rest : List Char} (hB : noWsXmlns B = true)
    (hrest : rest = [] ∨ ∃ t, rest = '<' :: t) :
    reSubXmlnsAux (B ++ rest) = B ++ reSubXmlnsAux rest := by
  induction B with
  | nil => simp
  | cons c cs ih =>
    rw [List.cons_append]
    have htail := nwx_tail hB
    rcases nwx_head hB with hw | ht
    · rw [reSub_step_nows hw, ih htail]
      rfl
    · have ht' : (cs ++ rest).take 5 ≠ ['x', 'm', 'l', 'n', 's'] := by
        intro hcontra
        rcases le_or_lt 5 cs.length with hlen | hlen
        · rw [List.take_append_of_le_length hlen] at hcontra
          exact ht hcontra
        · rcases hrest with rfl | ⟨t, rfl⟩
          · rw [List.append_nil] at hcontra
            exact absurd (take5_ge_length hcontra) (by omega)
          · have hmem : '<' ∈ (cs ++ '<' :: t).take 5 := by
              rw [List.take_append_eq_append_take,
                List.take_of_length_le (Nat.le_of_lt hlen)]
              refine List.mem_append_right _ ?_
              have h1 : 1 ≤ 5 - cs.length := by omega
              cases hcase : 5 - cs.length with
              | zero => omega
              | succ k =>
                rw [List.take_succ_cons]
                exact List.mem_cons_self _ _
            rw [hcontra] at hmem
            simp at hmem
      rw [reSub_step_noxmlns ht', ih htail]
      rfl

theorem dropThroughQuote_append {q : List Char} (t : List Char) (hq : ¬ '"' ∈ q) :
    dropThroughQuote (q ++ '"' :: t) = some t := by
  induction q with
  | nil => simp [dropThroughQuote]
  | cons c q' ih =>
    rw [List.cons_append]
    unfold dropThroughQuote
    rw [if_neg (show ¬ (c = '"') from fun hc => hq (List.mem_cons.2 (Or.inl hc.symm)))]
    exact ih (fun hm => hq (List.mem_cons_of_mem c hm))

theorem resub_one_decl {sfx uri : List Char} (rest : List Char)
    (hsfx : ¬ '"' ∈ sfx) (huri : ¬ '"' ∈ uri) :
    reSubXmlnsAux (' ' :: 'x' :: 'm' :: 'l' :: 'n' :: 's' ::
      (sfx ++ '=' :: '"' :: (uri ++ '"' :: rest))) = reSubXmlnsAux rest := by
  have hshape : sfx ++ '=' :: '"' :: (uri ++ '"' :: rest) =
      (sfx ++ ['=']) ++ '"' :: (uri ++ '"' :: rest) := by
    simp
  have h1 : dropThroughQuote ((sfx ++ ['=']) ++ '"' :: (uri ++ '"' :: rest)) =
      some (uri ++ '"' :: rest) := by
    refine dropThroughQuote_append _ ?_
    intro hm
    rcases List.mem_append.1 hm with hm | hm
    · exact hsfx hm
    · simp at hm
  have h2 : dropThroughQuote (uri ++ '"' :: rest) = some rest :=
    dropThroughQuote_append _ huri
  refine reSub_step_match rfl rfl ?_ h2
  rw [show ('x' :: 'm' :: 'l' :: 'n' :: 's' ::
      (sfx ++ '=' :: '"' :: (uri ++ '"' :: rest))).drop 5 =
      sfx ++ '=' :: '"' :: (uri ++ '"' :: rest) from rfl, hshape]
  exact h1

/-! ### Serialized shape of one child fragment -/

theorem str_data_append (a b : String) : (a ++ b).data = a.data ++ b.data := rfl

theorem serElem_decomp (e : XmlElem) : ∃ R : List Char, ∀ extra : String,
    (serElem e extra).data = '<' :: ((qnameOf e.ns e.tag).data ++ (extra.data ++ R)) := by
  cases e with
  | mk n tg ats tx ch tl =>
    by_cases h : (tx = "" && ch.isEmpty) = true
    · refine ⟨(serAttrs ats).data ++ (" />").data ++ (escCdata tl).data, fun extra => ?_⟩
      show (serElem (.mk n tg ats tx ch tl) extra).data = _
      rw [serElem, if_pos h]
      simp [str_data_append, XmlElem.ns, XmlElem.tag, List.append_assoc]
    · refine ⟨(serAttrs ats).data ++ (">").data ++ (escCdata tx).data ++
        (serList ch).data ++ ("</").data ++ (qnameOf n tg).data ++ (">").data ++
        (escCdata tl).data, fun extra => ?_⟩
      show (serElem (.mk n tg ats tx ch tl) extra).data = _
      rw [serElem, if_neg h]
      simp [str_data_append, XmlElem.ns, XmlElem.tag, List.append_assoc]

theorem etTostring_head (c : XmlElem) : ∃ t : List Char, (etTostring c).data = '<' :: t := by
  obtain ⟨R, hR⟩ := serElem_decomp c
  exact ⟨_, hR (declsString c)⟩

theorem nsPfx_no_quote (ns : String) : ¬ '"' ∈ (nsPfx ns).data := by
  unfold nsPfx
  split
  · simp [String.data]
  · split
    · decide
    · decide

theorem declOf_data (ns : String) (u : List Char) :
    (declOf ns).data ++ u = ' ' :: 'x' :: 'm' :: 'l' :: 'n' :: 's' ::
      ((if nsPfx ns = "" then "" else ":" ++ nsPfx ns).data ++
        '=' :: '"' :: (ns.data ++ '"' :: u)) := by
  unfold declOf
  simp [str_data_append, List.append_assoc]

theorem resub_decls (nss : List String) (t : List Char)
    (h : ∀ ns ∈ nss, ¬ '"' ∈ ns.data) :
    reSubXmlnsAux ((String.join (nss.map declOf)).data ++ t) = reSubXmlnsAux t := by
  induction nss with
  | nil => simp [String.join_eq]
  | cons ns rest ih =>
    have hjoin : (String.join ((ns :: rest).map declOf)).data =
        (declOf ns).data ++ (String.join (rest.map declOf)).data := by
      rw [List.map_cons, String.join_eq, String.join_eq, List.map_cons, List.flatten_cons]
    have hsfx : ¬ '"' ∈ (if nsPfx ns = "" then "" else ":" ++ nsPfx ns).data := by
      split
      · simp [String.data]
      · rw [str_data_append]
        intro hm
        rcases List.mem_append.1 hm with hm | hm
        · simp at hm
        · exact nsPfx_no_quote ns hm
    rw [hjoin, List.append_assoc, declOf_data,
      resub_one_decl _ hsfx (h ns (List.mem_cons_self ns rest))]
    exact ih (fun x hx => h x (List.mem_cons_of_mem _ hx))

/-- Well-formedness of one serialized child fragment: the qualified name
of its root holds no whitespace, and the namespace URIs collected from
its subtree hold no quote character. -/
def wfChild (c : XmlElem) : Prop :=
  (∀ ch ∈ (qnameOf c.ns c.tag).data, ch.isWhitespace = false) ∧
  (∀ ns ∈ nsCollect c [], ¬ '"' ∈ ns.data)

theorem resub_child (c : XmlElem) (rest : List Char) (hwf : wfChild c)
    (hnd : noWsXmlns (serElem c "").data = true)
    (hrest : rest = [] ∨ ∃ t, rest = '<' :: t) :
    reSubXmlnsAux ((etTostring c).data ++ rest) =
      (serElem c "").data ++ reSubXmlnsAux rest := by
  obtain ⟨R, hR⟩ := serElem_decomp c
  have h0 : (serElem c "").data = '<' :: ((qnameOf c.ns c.tag).data ++ R) := by
    have h := hR ""
    simpa using h
  have h1 : (etTostring c).data ++ rest =
      ('<' :: (qnameOf c.ns c.tag).data) ++ ((declsString c).data ++ (R ++ rest)) := by
    rw [show etTostring c = serElem c (declsString c) from rfl, hR (declsString c)]
    simp [List.append_assoc]
  have hP : ∀ ch ∈ ('<' :: (qnameOf c.ns c.tag).data), ch.isWhitespace = false := by
    intro ch hch
    rcases List.mem_cons.1 hch with rfl | hm
    · rfl
    · exact hwf.1 ch hm
  have hdecl : reSubXmlnsAux ((declsString c).data ++ (R ++ rest)) =
      reSubXmlnsAux (R ++ rest) := by
    rw [show declsString c = String.join
      (((nsCollect c []).mergeSort (fun a b => decide (nsPfx a ≤ nsPfx b))).map declOf)
      from rfl]
    refine resub_decls _ _ ?_
    intro ns hns
    exact hwf.2 ns ((List.mergeSort_perm _ _).mem_iff.1 hns)
  have hB : noWsXmlns R = true := by
    have h := hnd
    rw [h0] at h
    exact nwx_suffix (nwx_tail h)
  rw [h1, resub_append_noWs hP, hdecl, resub_boundary hB hrest, h0]
  simp [List.append_assoc]

theorem resub_children (cs : List XmlElem) (rest : List Char)
    (hwf : ∀ c ∈ cs, wfChild c)
    (hnd : noWsXmlns (serList cs).data = true)
    (hrest : rest = [] ∨ ∃ t, rest = '<' :: t) :
    reSubXmlnsAux ((String.join (cs.map etTostring)).data ++ rest) =
      (serList cs).data ++ reSubXmlnsAux rest := by
  induction cs with
  | nil =>
    rw [List.map_nil, String.join_eq]
    rw [show serList [] = "" from rfl]
    simp
  | cons c cs' ih =>
    have hjoin : (String.join ((c :: cs').map etTostring)).data =
        (etTostring c).data ++ (String.join (cs'.map etTostring)).data := by
      rw [List.map_cons, String.join_eq, String.join_eq, List.map_cons, List.flatten_cons]
    have hser : (serList (c :: cs')).data = (serElem c "").data ++ (serList cs').data := by
      rw [show serList (c :: cs') = serElem c "" ++ serList cs' from rfl, str_data_append]
    have hndc : noWsXmlns (serElem c "").data = true := by
      rw [hser] at hnd
      exact nwx_prefix hnd
    have hnd' : noWsXmlns (serList cs').data = true := by
      rw [hser] at hnd
      exact nwx_suffix hnd
    have hrest' : (String.join (cs'.map etTostring)).data ++ rest = [] ∨
        ∃ t2, (String.join (cs'.map etTostring)).data ++ rest = '<' :: t2 := by
      cases cs' with
      | nil =>
        rw [List.map_nil, String.join_eq]
        simpa using hrest
      | cons c2 cs'' =>
        obtain ⟨t2, ht2⟩ := etTostring_head c2
        right
        rw [show (String.join ((c2 :: cs'').map etTostring)).data
            = (etTostring c2).data ++ (String.join (cs''.map etTostring)).data from by
          rw [List.map_cons, String.join_eq, String.join_eq, List.map_cons,
            List.flatten_cons], ht2]
        exact ⟨_, rfl⟩
    rw [hjoin, List.append_assoc,
      resub_child c _ (hwf c (List.mem_cons_self c cs')) hndc hrest',
      ih (fun x hx => hwf x (List.mem_cons_of_mem c hx)) hnd', hser]
    simp [List.append_assoc]

theorem embedBody_eq (children : List XmlElem)
    (hwf : ∀ c ∈ children.filter (fun c => clarkTag c != svgTitleClark), wfChild c)
    (hnd : noWsXmlns
      (serList (children.filter (fun c => clarkTag c != svgTitleClark))).data = true) :
    embedBody children =
      serList (children.filter (fun c => clarkTag c != svgTitleClark)) := by
  unfold embedBody reSubXmlns
  refine String.ext ?_
  have h := resub_children (children.filter (fun c => clarkTag c != svgTitleClark)) []
    hwf hnd (Or.inl rfl)
  rw [List.append_nil, reSub_nil, List.append_nil] at h
  exact h

/-- C5: for a vector icon whose root carries `width="32px"` and
`height="32px"` (and whose content is well formed: whitespace-free
qualified names, quote-free namespace URIs, and no stray
whitespace-`xmlns` text in the declaration-free serialization), the
manifest entry gets integer width 32 and height 32, its body is exactly
the serialization of the root's non-title children with no namespace
declarations emitted, that body passes the no-`xmlns`-declaration check,
and every top-level `title` child has been stripped from it. -/
theorem C5_dims_and_clean_body (fs : FS) (m : Mermaid) (fname cat tgt : String)
    (fd : FileData) (root : XmlElem)
    (hext : pyEndsWith fname ".svg" = true)
    (hfs : fs fname = some fd)
    (hparse : fd.svgParse = some root)
    (hw : lookupAttr root "width" = some "32px")
    (hh : lookupAttr root "height" = some "32px")
    (hwf : ∀ c ∈ root.children.filter (fun c => clarkTag c != svgTitleClark), wfChild c)
    (hnx : noWsXmlns
      (serList (root.children.filter (fun c => clarkTag c != svgTitleClark))).data = true) :
    build_mermaid_icon fs m fname cat tgt =
      addIcon m cat tgt
        ⟨serList (root.children.filter (fun c => clarkTag c != svgTitleClark)), 32, 32⟩ ∧
    embedBody root.children =
      serList (root.children.filter (fun c => clarkTag c != svgTitleClark)) ∧
    noWsXmlns (embedBody root.children).data = true ∧
    ∀ c ∈ root.children.filter (fun c => clarkTag c != svgTitleClark),
      clarkTag c ≠ svgTitleClark := by
  have hbody := embedBody_eq root.children hwf hnx
  have hp : parsePyInt (pyStrip "32px" "px") = some 32 := by decide
  have hextract : svgExtract root = some (embedBody root.children, 32, 32) := by
    unfold svgExtract
    rw [hw]
    simp only [Option.some_bind]
    rw [hp]
    simp only [Option.some_bind]
    rw [hh]
    simp only [Option.some_bind]
    rw [hp]
    rfl
  have hEF : embedFile fs fname = some ⟨embedBody root.children, 32, 32⟩ := by
    unfold embedFile
    rw [if_pos (by rw [hext, hfs]; rfl), hfs]
    simp only [Option.some_bind]
    rw [hparse]
    simp only [Option.some_bind]
    rw [hextract]
    rfl
  refine ⟨?_, hbody, ?_, ?_⟩
  · rw [build_add m cat tgt hEF, hbody]
  · rw [hbody]
    exact hnx
  · intro c hc
    have hmem := (List.mem_filter.1 hc).2
    simpa using hmem

/-! ### Concrete data for witnesses -/

/-- A `title` child in the SVG namespace, stripped during embedding. -/
def wTitleElem : XmlElem := .mk svgNs "title" [] "Icon" [] ""

/-- A `path` child kept by the embedding. -/
def wPathElem : XmlElem := .mk svgNs "path" [⟨"", "d", "M0 0h32v32H0z"⟩] "" [] ""

/-- A 32px-by-32px SVG root with a title child and a path child. -/
def wSvgRoot : XmlElem :=
  .mk svgNs "svg" [⟨"", "width", "32px"⟩, ⟨"", "height", "32px"⟩] ""
    [wTitleElem, wPathElem] ""

/-- A small filesystem snapshot: one good SVG icon, one icon whose SVG
sibling fails to parse, and one raster-only icon. -/
def wFS : FS := fun s =>
  if s = "a/icon.svg" then some ⟨some wSvgRoot, none⟩
  else if s = "a/icon.png" then some ⟨none, some [1, 2, 3]⟩
  else if s = "b/bad.svg" then some ⟨none, none⟩
  else if s = "b/bad.png" then some ⟨none, some [4, 5, 6]⟩
  else if s = "c/solo.png" then some ⟨none, some [137, 80]⟩
  else none

def wIconA : Icon := ⟨"a/icon.png", "a", "icon"⟩

def wIconBad : Icon := ⟨"b/bad.png", "b", "bad"⟩

def wIconSolo : Icon := ⟨"c/solo.png", "c", "solo"⟩

/-- A deliberately wrong environment for the verifier witness. -/
def wEnvBad : Env := ⟨["wrong", "dir"], none, false, false, none, false⟩

/-! ### Witnesses -/

theorem C1_sorted_outputs_witness :
    aggregate wFS [wIconA, wIconSolo] = aggregate wFS [wIconSolo, wIconA] :=
  (C1_sorted_outputs wFS [wIconA, wIconSolo] [wIconSolo, wIconA]
    (List.Perm.swap wIconSolo wIconA []) (by decide)).1

theorem C2_manifest_invariants_witness :
    (processIcon wFS initMermaid wIconBad).total = initMermaid.total :=
  (C2_manifest_invariants wFS []).2.2.2 initMermaid wIconBad (by decide)

theorem C3_failure_skips_icon_witness :
    build_mermaid_icon wFS initMermaid "b/bad.svg" "b" "bad" = initMermaid :=
  (C3_failure_skips_icon wFS).1 initMermaid "b/bad.svg" "b" "bad" (by decide)

theorem C5_dims_and_clean_body_witness :
    build_mermaid_icon wFS initMermaid "a/icon.svg" "a" "icon" =
      addIcon initMermaid "a" "icon"
        ⟨serList (wSvgRoot.children.filter (fun c => clarkTag c != svgTitleClark)),
          32, 32⟩ :=
  (C5_dims_and_clean_body wFS initMermaid "a/icon.svg" "a" "icon"
    ⟨some wSvgRoot, none⟩ wSvgRoot rfl rfl rfl rfl rfl
    (by
      intro c hc
      rw [show wSvgRoot.children.filter (fun c => clarkTag c != svgTitleClark)
        = [wPathElem] from rfl] at hc
      rw [List.mem_singleton.1 hc]
      exact ⟨by decide, by decide⟩)
    (by decide)).1

theorem C6_raster_data_uri_witness :
    processIcon wFS initMermaid wIconSolo =
      addIcon initMermaid "c" "solo"
        ⟨"data:image/png;base64," ++ base64String [137, 80], 64, 64⟩ :=
  (C6_raster_data_uri wFS initMermaid wIconSolo ⟨none, some [137, 80]⟩ [137, 80]
    rfl rfl rfl rfl rfl).1

theorem C7_dirs_before_jobs_witness : "a" ∈ dirsAfterSetup [] [wIconA] :=
  (C7_dirs_before_jobs [wIconA] []).2.2.2.1 wIconA (List.mem_singleton.2 rfl)

theorem C8_verify_environment_failures_witness :
    verify_environment wEnvBad = .exitWith 1 :=
  (C8_verify_environment_failures wEnvBad).1 (by decide)

theorem C9_vector_never_falls_back_witness :
    processIcon wFS initMermaid wIconBad = initMermaid :=
  (C9_vector_never_falls_back wFS initMermaid wIconBad ⟨none, none⟩ rfl rfl).1 rfl

theorem C4_fixed_metadata_witness : (aggregate wFS [wIconA]).mermaid.version = "20.0" :=
  (C4_fixed_metadata.1 wFS [wIconA]).1

theorem C10_category_groups_witness :
    "c" ∈ (aggregate wFS [wIconSolo]).mermaid.categories.map Prod.fst :=
  ((C10_category_groups wFS [wIconSolo]).2.1 "c").2 (by decide)
